import Mathlib

/-
Verification of the address-correlation and clustering engine:
a shallow embedding of `tools/clustering.py`, `tools/transfer_heuristics.py`,
`agents/correlation_agent.py` and `tools/transaction_parser.py`.

Python `dict`s are modelled as association lists with insertion-order
semantics (updating an existing key keeps its position, a new key is
appended), `float`/`Decimal` values as `Rat`, Python `int` as `Int`
(sizes of union-find sets as `Nat`), and exceptions as `Except`.
-/

namespace Forensic

open List (Perm)
open scoped List

/-- Decidable equality for `Except`, used to evaluate the parser model on
concrete transactions. -/
instance {ε α : Type} [DecidableEq ε] [DecidableEq α] : DecidableEq (Except ε α) := fun a b =>
  match a, b with
  | .error e, .error f => if h : e = f then .isTrue (by rw [h]) else .isFalse (by simp [h])
  | .ok x, .ok y => if h : x = y then .isTrue (by rw [h]) else .isFalse (by simp [h])
  | .error _, .ok _ => .isFalse (by simp)
  | .ok _, .error _ => .isFalse (by simp)

/-- Python dict lookup (`d[k]` / `d.get(k)`): first binding of the key. -/
def lookupA {α : Type} : List (String × α) → String → Option α
  | [], _ => none
  | (k, v) :: rest, key => if k = key then some v else lookupA rest key

/-- Python dict assignment `d[k] = v`: update in place, else append. -/
def insertA {α : Type} : List (String × α) → String → α → List (String × α)
  | [], key, val => [(key, val)]
  | (k, v) :: rest, key, val =>
      if k = key then (k, val) :: rest else (k, v) :: insertA rest key val

/-- Python `d.setdefault(k, v)`: insert only when the key is absent. -/
def setdefaultA {α : Type} (l : List (String × α)) (key : String) (val : α) :
    List (String × α) :=
  match lookupA l key with
  | some _ => l
  | none => l ++ [(key, val)]

/-- Python `set.add` on a set modelled as a duplicate-free list. -/
def addMember (l : List String) (a : String) : List String :=
  if a ∈ l then l else l ++ [a]

/-! ### Union-find state (`GraphClusterer.parent` / `.size`) -/

/-- The mutable union-find state of `GraphClusterer`: `parent` and `size` dicts. -/
structure UF where
  parent : List (String × String)
  size : List (String × Nat)
deriving DecidableEq

/-- The `while addr != self.parent[addr]` loop of `GraphClusterer.find`,
with explicit fuel (the loop terminates on every forest; fuel
`parent.length + 1` is enough there).  Each step repoints `addr` to its
grandparent (path compression) and moves there. -/
def UF.findLoop : Nat → UF → String → UF × String
  | 0, uf, addr => (uf, addr)
  | fuel + 1, uf, addr =>
      match lookupA uf.parent addr with
      | none => (uf, addr)
      | some p =>
          if addr = p then (uf, addr)
          else
            let gp := (lookupA uf.parent p).getD p
            UF.findLoop fuel { uf with parent := insertA uf.parent addr gp } gp

/-- `GraphClusterer.find`: lazily registers an unknown address as its own
singleton root, otherwise walks to the root with path compression. -/
def UF.find (uf : UF) (addr : String) : UF × String :=
  match lookupA uf.parent addr with
  | none =>
      ({ parent := insertA uf.parent addr addr, size := insertA uf.size addr 1 }, addr)
  | some _ => UF.findLoop (uf.parent.length + 1) uf addr

/-- `GraphClusterer.union`: find both roots; if they differ, repoint the
root of the smaller set under the root of the larger set and accumulate
the size (on ties the first argument's root becomes the parent). -/
def UF.union (uf : UF) (a b : String) : UF :=
  let fa := UF.find uf a
  let fb := UF.find fa.1 b
  let uf2 := fb.1
  let root_a := fa.2
  let root_b := fb.2
  if root_a = root_b then uf2
  else
    let sa := (lookupA uf2.size root_a).getD 0
    let sb := (lookupA uf2.size root_b).getD 0
    if sa < sb then
      { parent := insertA uf2.parent root_a root_b, size := insertA uf2.size root_b (sb + sa) }
    else
      { parent := insertA uf2.parent root_b root_a, size := insertA uf2.size root_a (sa + sb) }

/-! ### `tools/clustering.py` and `tools/heuristics.py` data -/

/-- `heuristics.AddressStats` (amounts are Python floats, modelled as `Rat`). -/
structure AddressStats where
  address : String
  received : Rat
  sent : Rat
  unique_counterparties : Int
deriving DecidableEq

/-- `clustering.AddressCluster` (the member set is modelled as a
duplicate-free list in insertion order). -/
structure AddressCluster where
  members : List String
  score : Rat
deriving DecidableEq

/-- The clusterer object: union-find state plus the configured threshold. -/
structure GraphClusterer where
  uf : UF
  threshold : Rat
deriving DecidableEq

/-- `GraphClusterer.__init__(self, similarity_threshold: float = 0.5)`. -/
def GraphClusterer.init (similarity_threshold : Rat := 1/2) : GraphClusterer :=
  { uf := { parent := [], size := [] }, threshold := similarity_threshold }

/-- `GraphClusterer._similarity`. -/
def GraphClusterer.similarity (a b : AddressStats) : Rat :=
  let sent_gap := |a.sent - b.sent|
  let recv_gap := |a.received - b.received|
  let denom := max (a.sent + b.sent + a.received + b.received) (1/1000000000)
  1 - (sent_gap + recv_gap) / denom

/-- `GraphClusterer._score`. -/
def GraphClusterer.score (stats : AddressStats) : Rat :=
  let counterparty_weight := min ((stats.unique_counterparties : Rat) / 100) 1
  let flow_weight := min ((stats.sent + stats.received) / 1000) 1
  (6/10) * flow_weight + (4/10) * counterparty_weight

/-- `by_addr = {s.address: s for s in stats}`. -/
def byAddr (stats : List AddressStats) : List (String × AddressStats) :=
  stats.foldl (fun m s => insertA m s.address s) []

/-- `by_addr[a]` (total via a default never hit on the keys actually used). -/
def statsOf (m : List (String × AddressStats)) (a : String) : AddressStats :=
  (lookupA m a).getD { address := "", received := 0, sent := 0, unique_counterparties := 0 }

/-- The ordered pairs visited by the double loop
`for i, a in enumerate(addresses): for b in addresses[i+1:]`. -/
def pairs : List String → List (String × String)
  | [] => []
  | a :: rest => rest.map (fun b => (a, b)) ++ pairs rest

/-- The union pass of `cluster_by_flow_similarity`: union each visited
pair whose similarity reaches the threshold. -/
def unionPhase (m : List (String × AddressStats)) (t : Rat) :
    UF → List (String × String) → UF
  | uf, [] => uf
  | uf, p :: rest =>
      unionPhase m t
        (if GraphClusterer.similarity (statsOf m p.1) (statsOf m p.2) ≥ t
         then UF.union uf p.1 p.2 else uf) rest

/-- The bucket pass: `buckets[self.find(addr)].add(addr)` over all addresses
(buckets is a `defaultdict(set)`). -/
def bucketsLoop : UF → List (String × List String) → List String →
    UF × List (String × List String)
  | uf, bs, [] => (uf, bs)
  | uf, bs, a :: rest =>
      let fr := UF.find uf a
      let cur := (lookupA bs fr.2).getD []
      bucketsLoop fr.1 (insertA bs fr.2 (addMember cur a)) rest

/-- `sum(self._score(by_addr[m]) for m in members) / len(members)`. -/
def clusterScore (m : List (String × AddressStats)) (members : List String) : Rat :=
  (members.map (fun a => GraphClusterer.score (statsOf m a))).sum / (members.length : Rat)

/-- Stable insertion used to model
`sorted(clusters, key=lambda c: c.score, reverse=True)`: an element is
placed before the first existing element whose score is ≤ its own, so
equal scores keep their original order, exactly as Python's stable sort. -/
def insertDescByScore (c : AddressCluster) : List AddressCluster → List AddressCluster
  | [] => [c]
  | d :: rest => if d.score ≤ c.score then c :: d :: rest else d :: insertDescByScore c rest

/-- Python `sorted(..., key=lambda c: c.score, reverse=True)`. -/
def pySortByScoreDesc (l : List AddressCluster) : List AddressCluster :=
  l.foldr insertDescByScore []

/-- `GraphClusterer.cluster_by_flow_similarity` with the updated clusterer
state returned alongside the cluster list. -/
def GraphClusterer.cluster_by_flow_similarity (g : GraphClusterer)
    (stats : List AddressStats) : GraphClusterer × List AddressCluster :=
  let m := byAddr stats
  let addresses := m.map Prod.fst
  let uf1 := unionPhase m g.threshold g.uf (pairs addresses)
  let res := bucketsLoop uf1 [] addresses
  let clusters := res.2.map (fun b =>
    { members := b.2, score := clusterScore m b.2 : AddressCluster })
  ({ uf := res.1, threshold := g.threshold }, pySortByScoreDesc clusters)

/-! ### `tools/transaction_parser.py` data (needed by the heuristics) -/

/-- `transaction_parser.TokenTransfer` (amount is a `Decimal`, modelled
as `Rat`). -/
structure TokenTransfer where
  mint : String
  source : String
  destination : String
  amount : Rat
  raw_amount : Int
  decimals : Int
  program : String
deriving DecidableEq

/-! ### `tools/transfer_heuristics.py` -/

/-- `transfer_heuristics.BalanceAggregate`. -/
structure BalanceAggregate where
  sent : Rat
  received : Rat
  peers : List String
deriving DecidableEq

/-- `transfer_heuristics.SuspiciousReport`. -/
structure SuspiciousReport where
  by_mint : List (String × List (String × List String))
  cross_mint : List (String × List String)
deriving DecidableEq

/-- The configuration carried by `transfer_heuristics.TransferHeuristics`. -/
structure TransferHeuristics where
  round_trip_ratio : Rat
  hub_threshold : Int
deriving DecidableEq

/-- `TransferHeuristics.__init__(round_trip_ratio=Decimal("0.8"), hub_threshold=6)`. -/
def TransferHeuristics.init (round_trip_ratio : Rat := 4/5) (hub_threshold : Int := 6) :
    TransferHeuristics :=
  { round_trip_ratio := round_trip_ratio, hub_threshold := hub_threshold }

/-- `TransferHeuristics.aggregate_balances`: per-mint, per-address fold of
sent/received amounts and peer sets. -/
def aggregate_balances (transfers : List TokenTransfer) :
    List (String × List (String × BalanceAggregate)) :=
  transfers.foldl (fun buckets t =>
    let mint_bucket := (lookupA buckets t.mint).getD []
    let sender := (lookupA mint_bucket t.source).getD { sent := 0, received := 0, peers := [] }
    let sender' := { sender with
      sent := sender.sent + t.amount, peers := addMember sender.peers t.destination }
    let mb1 := insertA mint_bucket t.source sender'
    let receiver := (lookupA mb1 t.destination).getD { sent := 0, received := 0, peers := [] }
    let receiver' := { receiver with
      received := receiver.received + t.amount, peers := addMember receiver.peers t.source }
    let mb2 := insertA mb1 t.destination receiver'
    insertA buckets t.mint mb2) []

/-- The per-address body of `flag_suspicious_patterns`: the `reasons` list
accumulated for one `BalanceAggregate`. -/
def addressReasons (round_trip_ratio : Rat) (hub_threshold : Int)
    (metrics : BalanceAggregate) : List String :=
  (if metrics.received > 0 ∧ metrics.sent / metrics.received ≥ round_trip_ratio
   then ["round_trip_flow"] else []) ++
  (if (metrics.peers.length : Int) ≥ hub_threshold then ["hub_like_behavior"] else [])

/-- The inner loop of `flag_suspicious_patterns` over one mint's address
map, threading the `cross_mint` dict; returns `(mint_flags, cross_mint)`. -/
def flagsForMint (th : TransferHeuristics) (mint : String) :
    List (String × BalanceAggregate) → List (String × List String) →
    List (String × List String) × List (String × List String)
  | [], cross => ([], cross)
  | (address, metrics) :: rest, cross =>
      let reasons := addressReasons th.round_trip_ratio th.hub_threshold metrics
      if reasons = [] then flagsForMint th mint rest cross
      else
        let cross' := insertA cross address
          ((lookupA cross address).getD [] ++ reasons.map (fun r => mint ++ ":" ++ r))
        let res := flagsForMint th mint rest cross'
        ((address, reasons) :: res.1, res.2)

/-- The outer loop of `flag_suspicious_patterns` over the mints; a mint
enters `by_mint` only when its `mint_flags` is non-empty. -/
def flagMints (th : TransferHeuristics) :
    List (String × List (String × BalanceAggregate)) → List (String × List String) →
    List (String × List (String × List String)) × List (String × List String)
  | [], cross => ([], cross)
  | (mint, address_map) :: rest, cross =>
      let inner := flagsForMint th mint address_map cross
      let res := flagMints th rest inner.2
      (if inner.1 = [] then res.1 else (mint, inner.1) :: res.1, res.2)

/-- `TransferHeuristics.flag_suspicious_patterns`. -/
def flag_suspicious_patterns (th : TransferHeuristics)
    (aggregates : List (String × List (String × BalanceAggregate))) : SuspiciousReport :=
  let res := flagMints th aggregates []
  { by_mint := res.1, cross_mint := res.2 }

/-! ### `agents/correlation_agent.py` -/

/-- `heuristics.SuspicionFlag`. -/
structure SuspicionFlag where
  address : String
  reason : String
deriving DecidableEq

/-- `solana_tools.TokenTransfer` (the transfer shape `correlate` receives
and ignores). -/
structure SolanaTokenTransfer where
  source : String
  destination : String
  amount : Rat
  mint : String
  slot : Int
  signature : String
deriving DecidableEq

/-- `correlation_agent.CorrelationResult`. -/
structure CorrelationResult where
  clusters : List AddressCluster
  flags : List SuspicionFlag
deriving DecidableEq

/-- The `CorrelationAgent` holds its clusterer. -/
structure CorrelationAgent where
  clusterer : GraphClusterer
deriving DecidableEq

/-- `CorrelationAgent.__init__(self, similarity_threshold: float = 0.55)`. -/
def CorrelationAgent.init (similarity_threshold : Rat := 11/20) : CorrelationAgent :=
  { clusterer := GraphClusterer.init similarity_threshold }

/-- `CorrelationAgent.correlate`: cluster the balances, then append one new
flag (reason "Cluster proximity to flagged counterparties") for every not
yet flagged member of every cluster that intersects the flagged set. -/
def CorrelationAgent.correlate (agent : CorrelationAgent)
    (balances : List AddressStats) (flags : List SuspicionFlag)
    (_transfers : List SolanaTokenTransfer) : CorrelationResult :=
  let res := agent.clusterer.cluster_by_flow_similarity balances
  let clusters := res.2
  let suspicious_addresses := flags.map SuspicionFlag.address
  let propagated_flags := clusters.foldl (fun acc c =>
    if c.members.any (fun a => a ∈ suspicious_addresses) then
      acc ++ (c.members.filter (fun a => a ∉ suspicious_addresses)).map (fun a =>
        { address := a, reason := "Cluster proximity to flagged counterparties" : SuspicionFlag })
    else acc) flags
  { clusters := clusters, flags := propagated_flags }

/-! ### `tools/transaction_parser.py` -/

/-- A JSON scalar that may sit under an "amount" key: an integer or a
string handed to Python's `int(...)`. -/
inductive PyVal where
  | int (n : Int)
  | str (s : String)
deriving DecidableEq

/-- Python `int(...)` on a decimal string: optional minus sign followed by
at least one digit; anything else raises `ValueError` (`none`). -/
def parseDigitsAux : List Char → Nat → Option Nat
  | [], acc => some acc
  | c :: rest, acc =>
      if c.isDigit then parseDigitsAux rest (acc * 10 + (c.toNat - 48)) else none

/-- Python `int(s)` for a string `s` (modelled on sign + digits). -/
def strToInt? (s : String) : Option Int :=
  match s.toList with
  | [] => none
  | '-' :: rest => if rest = [] then none else (parseDigitsAux rest 0).map (fun n => -(n : Int))
  | cs => (parseDigitsAux cs 0).map (fun n => (n : Int))

/-- Python `int(v)`: identity on ints, digit parsing on strings
(`none` models the raised `ValueError`). -/
def pyInt : PyVal → Option Int
  | .int n => some n
  | .str s => strToInt? s

/-- The `uiTokenAmount` sub-dict of a token balance record. -/
structure UiTA where
  decimals : Option Int
deriving DecidableEq

/-- One entry of `meta["preTokenBalances"]` / `meta["postTokenBalances"]`. -/
structure UiTokenBalance where
  mint : Option String
  uiTokenAmount : Option UiTA
  accountIndex : Option Int
deriving DecidableEq

/-- The `tokenAmount` sub-dict of a parsed instruction's `info`. -/
structure TokenAmountField where
  amount : Option PyVal
  decimals : Option Int
deriving DecidableEq

/-- The `info` dict of a parsed instruction (fields the parser reads). -/
structure InstrInfo where
  source : Option String
  authority : Option String
  destination : Option String
  dest : Option String
  tokenAmount : Option TokenAmountField
  amount : Option PyVal
  mint : Option String
deriving DecidableEq

/-- The `parsed` dict of an instruction (`none` models a missing or
non-dict value). -/
structure ParsedInstr where
  type : Option String
  info : Option InstrInfo
deriving DecidableEq

/-- One instruction record. -/
structure Instruction where
  parsed : Option ParsedInstr
  program : Option String
deriving DecidableEq

/-- One `innerInstructions` entry. -/
structure InnerInstr where
  instructions : List Instruction
deriving DecidableEq

/-- The `meta` dict of a transaction (absent keys modelled as `[]`). -/
structure TxMeta where
  preTokenBalances : List UiTokenBalance
  postTokenBalances : List UiTokenBalance
  innerInstructions : List InnerInstr
deriving DecidableEq

/-- The `transaction.message` dict. -/
structure TxMessage where
  accountKeys : List String
  instructions : List Instruction
deriving DecidableEq

/-- A whole parsed transaction as the parser reads it. -/
structure Transaction where
  meta : Option TxMeta
  message : Option TxMessage
deriving DecidableEq

/-- The empty `info` dict (`parsed.get("info", {}) or {}`). -/
def emptyInstrInfo : InstrInfo :=
  { source := none, authority := none, destination := none, dest := none,
    tokenAmount := none, amount := none, mint := none }

/-- Python `x or y or ""` over two optional strings (empty strings are
falsy). -/
def pyStrOr (a b : Option String) : String :=
  match a with
  | some s => if s = "" then (match b with | some t => t | none => "") else s
  | none => match b with | some t => t | none => ""

/-- `TransactionParser._collect_token_metadata`: fold pre+post token
balances into `decimals_by_mint` (setdefault) and `account_mint_map`
(assignment, guarded by a valid account index). -/
def collect_token_metadata (meta : TxMeta) (account_keys : List String) :
    List (String × Int) × List (String × String) :=
  (meta.preTokenBalances ++ meta.postTokenBalances).foldl (fun acc b =>
    let decimals := (b.uiTokenAmount.getD { decimals := none }).decimals
    let acc1 := match b.mint, decimals with
      | some m, some d => if m ≠ "" then (setdefaultA acc.1 m d, acc.2) else acc
      | _, _ => acc
    match b.mint, b.accountIndex with
    | some m, some idx =>
        if 0 ≤ idx ∧ idx < (account_keys.length : Int) then
          (acc1.1, insertA acc1.2 (account_keys.getD idx.toNat "") m)
        else acc1
    | _, _ => acc1) ([], [])

/-- `TransactionParser._decimals_for_mint`: balance-snapshot metadata
first, then the caller-supplied cache, then the lookup callback whose
non-`None` result is written back into the cache.  Returns the resolved
decimals and the updated cache. -/
def decimals_for_mint (cache : List (String × Int))
    (mint_lookup : Option (String → Option Int)) (decimals_by_mint : List (String × Int))
    (mint : String) : Option Int × List (String × Int) :=
  match lookupA decimals_by_mint mint with
  | some d => (some d, cache)
  | none =>
      match lookupA cache mint with
      | some d => (some d, cache)
      | none =>
          match mint_lookup with
          | some f =>
              match f mint with
              | some resolved => (some resolved, insertA cache mint resolved)
              | none => (none, cache)
          | none => (none, cache)

/-- The amount block of `_parse_instruction`: prefer
`info["tokenAmount"]["amount"]` (with its optional `decimals`), else
`info["amount"]`, else drop the instruction (`ok none`); a value that
`int(...)` cannot parse raises (`error`). -/
def rawAmountAndDecimals (info : InstrInfo) : Except String (Option (Int × Option Int)) :=
  match info.tokenAmount with
  | some ta =>
      match ta.amount with
      | some v =>
          match pyInt v with
          | some n => .ok (some (n, ta.decimals))
          | none => .error "invalid literal for int() with base 10"
      | none =>
          match info.amount with
          | some v =>
              match pyInt v with
              | some n => .ok (some (n, none))
              | none => .error "invalid literal for int() with base 10"
          | none => .ok none
  | none =>
      match info.amount with
      | some v =>
          match pyInt v with
          | some n => .ok (some (n, none))
          | none => .error "invalid literal for int() with base 10"
      | none => .ok none

/-- The mint block of `_parse_instruction`: the instruction's own mint if
truthy, else the account↔mint map at the source then the destination;
`none` drops the instruction. -/
def resolveMint (info : InstrInfo) (account_mint_map : List (String × String))
    (source destination : String) : Option String :=
  let m0 := pyStrOr info.mint none
  let m1 := if m0 = ""
    then pyStrOr (lookupA account_mint_map source) (lookupA account_mint_map destination)
    else m0
  if m1 = "" then none else some m1

/-- `TransactionParser._parse_instruction`: returns the parsed transfer (or
`none` when the instruction is skipped or dropped) together with the
updated `mint_decimals` cache; `error` models a raised exception. -/
def parse_instruction (cache : List (String × Int))
    (mint_lookup : Option (String → Option Int)) (decimals_by_mint : List (String × Int))
    (account_mint_map : List (String × String)) (instruction : Instruction) :
    Except String (Option TokenTransfer × List (String × Int)) :=
  match instruction.parsed with
  | none => .ok (none, cache)
  | some parsed =>
      let program := instruction.program.getD ""
      if parsed.type = some "transfer" ∨ parsed.type = some "transferChecked" then
        let info := parsed.info.getD emptyInstrInfo
        let source := pyStrOr info.source info.authority
        let destination := pyStrOr info.destination info.dest
        match rawAmountAndDecimals info with
        | .error e => .error e
        | .ok none => .ok (none, cache)
        | .ok (some (raw_amount, decimals_from_instruction)) =>
            match resolveMint info account_mint_map source destination with
            | none => .ok (none, cache)
            | some mint =>
                let resolved := decimals_for_mint cache mint_lookup decimals_by_mint mint
                let decimals := match decimals_from_instruction with
                  | some d => some d
                  | none => resolved.1
                match decimals with
                | none => .ok (none, resolved.2)
                | some d =>
                    .ok (some { mint := mint, source := source,
                                destination := destination,
                                amount := (raw_amount : Rat) / (10 : Rat) ^ d,
                                raw_amount := raw_amount, decimals := d,
                                program := program },
                        resolved.2)
      else .ok (none, cache)

/-- `TransactionParser._all_instructions`: top-level instructions followed
by every inner instruction list. -/
def all_instructions (message : TxMessage) (meta : TxMeta) : List Instruction :=
  message.instructions ++ (meta.innerInstructions.map InnerInstr.instructions).flatten

/-- The loop of `extract_transfers` over the instructions, threading the
`mint_decimals` cache and collecting parsed transfers; an exception in
`_parse_instruction` propagates. -/
def extractLoop (mint_lookup : Option (String → Option Int))
    (decimals_by_mint : List (String × Int)) (account_mint_map : List (String × String)) :
    List TokenTransfer → List (String × Int) → List Instruction →
    Except String (List TokenTransfer × List (String × Int))
  | ts, cache, [] => .ok (ts, cache)
  | ts, cache, i :: rest =>
      match parse_instruction cache mint_lookup decimals_by_mint account_mint_map i with
      | .error e => .error e
      | .ok (some t, cache') => extractLoop mint_lookup decimals_by_mint account_mint_map
          (ts ++ [t]) cache' rest
      | .ok (none, cache') => extractLoop mint_lookup decimals_by_mint account_mint_map
          ts cache' rest

/-- `TransactionParser.extract_transfers` (the parser's `mint_decimals`
dict is the `cache` argument and is returned updated). -/
def extract_transfers (cache : List (String × Int))
    (mint_lookup : Option (String → Option Int)) (tx : Transaction) :
    Except String (List TokenTransfer × List (String × Int)) :=
  let meta := tx.meta.getD { preTokenBalances := [], postTokenBalances := [], innerInstructions := [] }
  let message := tx.message.getD { accountKeys := [], instructions := [] }
  let md := collect_token_metadata meta message.accountKeys
  extractLoop mint_lookup md.1 md.2 [] cache (all_instructions message meta)

/-! ### Derived notions and concrete fixtures used by the statements -/

/-- All addresses stored across the buckets of the grouping pass. -/
def allMembers (bs : List (String × List String)) : List String :=
  (bs.map Prod.snd).flatten

/-- The amount fields of an instruction survive Python's `int(...)`
(when this fails the parser raises instead of dropping the instruction). -/
def amountParses (i : Instruction) : Prop :=
  match i.parsed with
  | none => True
  | some pd => (rawAmountAndDecimals (pd.info.getD emptyInstrInfo)).isOk = true

instance (i : Instruction) : Decidable (amountParses i) := by
  unfold amountParses
  match i.parsed with
  | none => exact inferInstanceAs (Decidable True)
  | some pd => exact inferInstanceAs (Decidable (_ = true))

/-- Three addresses with identical flow statistics (they all pair at
similarity 1). -/
def statsABC : List AddressStats :=
  [ { address := "A", received := 50, sent := 50, unique_counterparties := 3 },
    { address := "B", received := 50, sent := 50, unique_counterparties := 3 },
    { address := "C", received := 50, sent := 50, unique_counterparties := 3 } ]

/-- One isolated address (its flow statistics never meet any pair). -/
def singleStats : List AddressStats :=
  [ { address := "A", received := 0, sent := 0, unique_counterparties := 0 } ]

/-- A union-find state with two registered singleton roots. -/
def ufAB : UF :=
  { parent := [("A", "A"), ("B", "B")], size := [("A", 1), ("B", 1)] }

/-- The round-trip scenario: X sends Y 100 of mintA, Y sends Z 95 of mintA. -/
def scenarioTransfers : List TokenTransfer :=
  [ { mint := "mintA", source := "X", destination := "Y", amount := 100, raw_amount := 100,
      decimals := 0, program := "" },
    { mint := "mintA", source := "Y", destination := "Z", amount := 95, raw_amount := 95,
      decimals := 0, program := "" } ]

/-- The aggregate the scenario produces for address Y: sent 95,
received 100, peers X and Z. -/
def aggregatedY : BalanceAggregate := { sent := 95, received := 100, peers := ["X", "Z"] }

/-- The whole mintA bucket the scenario aggregation produces. -/
def mintABucket : List (String × BalanceAggregate) :=
  [ ("X", { sent := 100, received := 0, peers := ["Y"] }),
    ("Y", aggregatedY),
    ("Z", { sent := 0, received := 95, peers := ["Y"] }) ]

/-- A plain transfer instruction with an integer amount and explicit mint. -/
def goodInstr : Instruction :=
  ⟨some ⟨some "transfer", some ⟨some "S", none, some "D", none, none, some (.int 500), some "M"⟩⟩,
   some "spl-token"⟩

/-- A transfer instruction whose amount is a non-numeric string, so
Python's `int(...)` raises on it. -/
def badInstr : Instruction :=
  ⟨some ⟨some "transfer", some ⟨some "S", none, some "D", none, none, some (.str "xyz"), some "M"⟩⟩,
   some "spl-token"⟩

/-- An instruction without a parsed payload (skipped by the parser). -/
def noParsedInstr : Instruction := ⟨none, none⟩

/-- A transaction holding one good transfer followed by the unparseable
one. -/
def badTx : Transaction :=
  ⟨some ⟨[], [], []⟩, some ⟨[], [goodInstr, badInstr]⟩⟩

/-- A transaction holding a skipped instruction and one good transfer. -/
def goodTx : Transaction :=
  ⟨some ⟨[], [], []⟩, some ⟨[], [noParsedInstr, goodInstr]⟩⟩

/-! ### Association-list lemmas -/

theorem lookupA_insertA_self {α : Type} (l : List (String × α)) (k : String) (v : α) :
    lookupA (insertA l k v) k = some v := by
  induction l with
  | nil => simp [insertA, lookupA]
  | cons p rest ih =>
      obtain ⟨a, b⟩ := p
      by_cases h : a = k
      · simp [insertA, h, lookupA]
      · simp [insertA, h, lookupA, ih]

theorem lookupA_insertA_ne {α : Type} (l : List (String × α)) (k k' : String) (v : α)
    (h : k' ≠ k) : lookupA (insertA l k v) k' = lookupA l k' := by
  induction l with
  | nil => simp [insertA, lookupA, Ne.symm h]
  | cons p rest ih =>
      obtain ⟨a, b⟩ := p
      by_cases ha : a = k
      · subst ha
        simp [insertA, lookupA, Ne.symm h]
      · simp only [insertA, if_neg ha, lookupA]
        by_cases ha' : a = k'
        · simp [ha']
        · simp [ha', ih]

theorem keys_insertA {α : Type} (l : List (String × α)) (k : String) (v : α) :
    (insertA l k v).map Prod.fst =
      if k ∈ l.map Prod.fst then l.map Prod.fst else l.map Prod.fst ++ [k] := by
  induction l with
  | nil => simp [insertA]
  | cons p rest ih =>
      obtain ⟨a, b⟩ := p
      by_cases h : a = k
      · simp [insertA, h]
      · simp only [insertA, if_neg h, List.map_cons, ih]
        by_cases hk : k ∈ rest.map Prod.fst
        · simp [hk, Ne.symm h]
        · simp [hk, Ne.symm h]

theorem nodup_keys_insertA {α : Type} (l : List (String × α)) (k : String) (v : α)
    (h : (l.map Prod.fst).Nodup) : ((insertA l k v).map Prod.fst).Nodup := by
  rw [keys_insertA]
  by_cases hk : k ∈ l.map Prod.fst
  · simpa [hk]
  · rw [if_neg hk]
    refine List.Nodup.append h (List.nodup_singleton k) ?_
    intro x hx hx'
    rw [List.mem_singleton] at hx'
    exact hk (hx' ▸ hx)

theorem lookupA_isSome_of_mem_keys {α : Type} (l : List (String × α)) (a : String)
    (h : a ∈ l.map Prod.fst) : ∃ v, lookupA l a = some v := by
  induction l with
  | nil => simp at h
  | cons p rest ih =>
      obtain ⟨x, y⟩ := p
      by_cases hx : x = a
      · exact ⟨y, by simp [lookupA, hx]⟩
      · simp only [List.map_cons, List.mem_cons] at h
        rcases h with h | h
        · exact absurd h.symm hx
        · obtain ⟨v, hv⟩ := ih h
          exact ⟨v, by simp [lookupA, hx, hv]⟩

/-! ### `byAddr` lemmas -/

theorem byAddr_foldl_lookup (stats : List AddressStats) (acc : List (String × AddressStats))
    (a : String) (s : AddressStats)
    (h : lookupA (stats.foldl (fun m s => insertA m s.address s) acc) a = some s) :
    (s ∈ stats ∧ s.address = a) ∨ lookupA acc a = some s := by
  induction stats generalizing acc with
  | nil => exact Or.inr h
  | cons x rest ih =>
      simp only [List.foldl_cons] at h
      rcases ih (insertA acc x.address x) h with h1 | h1
      · exact Or.inl ⟨List.mem_cons_of_mem _ h1.1, h1.2⟩
      · by_cases hx : a = x.address
        · rw [hx, lookupA_insertA_self] at h1
          cases h1
          exact Or.inl ⟨List.mem_cons_self _ _, hx.symm⟩
        · rw [lookupA_insertA_ne _ _ _ _ hx] at h1
          exact Or.inr h1

theorem byAddr_lookup (stats : List AddressStats) (a : String) (s : AddressStats)
    (h : lookupA (byAddr stats) a = some s) : s ∈ stats ∧ s.address = a := by
  rcases byAddr_foldl_lookup stats [] a s h with h1 | h1
  · exact h1
  · simp [lookupA] at h1

theorem byAddr_foldl_keys_nodup (stats : List AddressStats) (acc : List (String × AddressStats))
    (h : (acc.map Prod.fst).Nodup) :
    (((stats.foldl (fun m s => insertA m s.address s) acc)).map Prod.fst).Nodup := by
  induction stats generalizing acc with
  | nil => exact h
  | cons x rest ih => exact ih _ (nodup_keys_insertA _ _ _ h)

theorem byAddr_keys_nodup (stats : List AddressStats) :
    ((byAddr stats).map Prod.fst).Nodup :=
  byAddr_foldl_keys_nodup stats [] (by simp)

theorem mem_byAddr_foldl_keys (stats : List AddressStats) (acc : List (String × AddressStats))
    (a : String) :
    a ∈ ((stats.foldl (fun m s => insertA m s.address s) acc)).map Prod.fst ↔
      (∃ s ∈ stats, s.address = a) ∨ a ∈ acc.map Prod.fst := by
  induction stats generalizing acc with
  | nil => simp
  | cons x rest ih =>
      simp only [List.foldl_cons, ih, keys_insertA]
      by_cases hk : x.address ∈ acc.map Prod.fst
      · simp only [if_pos hk]
        constructor
        · rintro (⟨s, hs, rfl⟩ | h)
          · exact Or.inl ⟨s, List.mem_cons_of_mem _ hs, rfl⟩
          · exact Or.inr h
        · rintro (⟨s, hs, rfl⟩ | h)
          · rcases List.mem_cons.1 hs with rfl | hs'
            · exact Or.inr hk
            · exact Or.inl ⟨s, hs', rfl⟩
          · exact Or.inr h
      · simp only [if_neg hk, List.mem_append, List.mem_singleton]
        constructor
        · rintro (⟨s, hs, rfl⟩ | h | rfl)
          · exact Or.inl ⟨s, List.mem_cons_of_mem _ hs, rfl⟩
          · exact Or.inr h
          · exact Or.inl ⟨x, List.mem_cons_self _ _, rfl⟩
        · rintro (⟨s, hs, rfl⟩ | h)
          · rcases List.mem_cons.1 hs with rfl | hs'
            · exact Or.inr (Or.inr rfl)
            · exact Or.inl ⟨s, hs', rfl⟩
          · exact Or.inr (Or.inl h)

theorem mem_byAddr_keys (stats : List AddressStats) (a : String) :
    a ∈ (byAddr stats).map Prod.fst ↔ ∃ s ∈ stats, s.address = a := by
  rw [byAddr, mem_byAddr_foldl_keys]
  simp

/-! ### Pair-enumeration and union-pass lemmas -/

theorem pairs_cover (l : List String) (a b : String) (ha : a ∈ l) (hb : b ∈ l)
    (hne : a ≠ b) : (a, b) ∈ pairs l ∨ (b, a) ∈ pairs l := by
  induction l with
  | nil => simp at ha
  | cons x rest ih =>
      rcases List.mem_cons.1 ha with rfl | ha'
      · rcases List.mem_cons.1 hb with rfl | hb'
        · exact absurd rfl hne
        · exact Or.inl (by simp [pairs]; exact Or.inl hb')
      · rcases List.mem_cons.1 hb with rfl | hb'
        · exact Or.inr (by simp [pairs]; exact Or.inl ha')
        · rcases ih ha' hb' with h | h
          · exact Or.inl (by simp [pairs]; exact Or.inr h)
          · exact Or.inr (by simp [pairs]; exact Or.inr h)

theorem unionPhase_eq_foldl_filter (m : List (String × AddressStats)) (t : Rat) (uf : UF)
    (ps : List (String × String)) :
    unionPhase m t uf ps =
      (ps.filter (fun p =>
          GraphClusterer.similarity (statsOf m p.1) (statsOf m p.2) ≥ t)).foldl
        (fun u p => UF.union u p.1 p.2) uf := by
  induction ps generalizing uf with
  | nil => rfl
  | cons p rest ih =>
      by_cases h : GraphClusterer.similarity (statsOf m p.1) (statsOf m p.2) ≥ t
      · simp only [unionPhase, if_pos h, List.filter_cons, decide_eq_true h, List.foldl_cons]
        exact ih _
      · simp only [unionPhase, if_neg h, List.filter_cons, decide_eq_false h, List.foldl_cons]
        exact ih _

/-! ### Claim theorems: similarity, union-by-size, pair linkage -/

/-- C9: the clusterer's similarity function is symmetric:
`_similarity(a, b) == _similarity(b, a)` for all address statistics. -/
theorem c9_similarity_symmetric (a b : AddressStats) :
    GraphClusterer.similarity a b = GraphClusterer.similarity b a := by
  simp only [GraphClusterer.similarity]
  rw [abs_sub_comm a.sent b.sent, abs_sub_comm a.received b.received,
    show a.sent + b.sent + a.received + b.received
        = b.sent + a.sent + b.received + a.received from by ring]

/-- C2: when `union(a, b)` finds two distinct roots, the root of the
smaller set is repointed under the root of the larger set and the
surviving root's size becomes the sum of both sizes; on a size tie the
first argument's root `find(a)` becomes the parent. -/
theorem c2_union_by_size (uf : UF) (a b : String) (sa sb : Nat)
    (ha : lookupA (UF.find (UF.find uf a).1 b).1.size (UF.find uf a).2 = some sa)
    (hb : lookupA (UF.find (UF.find uf a).1 b).1.size (UF.find (UF.find uf a).1 b).2 = some sb)
    (hne : (UF.find uf a).2 ≠ (UF.find (UF.find uf a).1 b).2) :
    UF.union uf a b =
      if sa < sb then
        { parent := insertA (UF.find (UF.find uf a).1 b).1.parent
            (UF.find uf a).2 (UF.find (UF.find uf a).1 b).2,
          size := insertA (UF.find (UF.find uf a).1 b).1.size
            (UF.find (UF.find uf a).1 b).2 (sb + sa) }
      else
        { parent := insertA (UF.find (UF.find uf a).1 b).1.parent
            (UF.find (UF.find uf a).1 b).2 (UF.find uf a).2,
          size := insertA (UF.find (UF.find uf a).1 b).1.size
            (UF.find uf a).2 (sa + sb) } := by
  simp only [UF.union, ha, hb, Option.getD_some, if_neg hne]

/-- C2 witness: on two registered singleton roots the sizes tie, so the
first argument's root "A" becomes the parent of "B" and its size becomes 2. -/
theorem c2_union_by_size_witness :
    UF.union ufAB "A" "B" =
      { parent := [("A", "A"), ("B", "A")], size := [("A", 2), ("B", 1)] } := by
  have h := c2_union_by_size ufAB "A" "B" 1 1 (by decide) (by decide) (by decide)
  rw [if_neg (by decide)] at h
  rw [h]
  decide

/-! ### Bucket-pass lemmas -/

theorem addMember_ne_nil (l : List String) (a : String) : addMember l a ≠ [] := by
  unfold addMember
  by_cases h : a ∈ l
  · simp only [if_pos h]
    intro hl
    rw [hl] at h
    simp at h
  · simp [if_neg h]

theorem mem_insertA {α : Type} (bs : List (String × α)) (k : String) (v : α)
    (p : String × α) (hp : p ∈ insertA bs k v) : p ∈ bs ∨ p = (k, v) := by
  induction bs with
  | nil => simpa [insertA] using hp
  | cons q rest ih =>
      obtain ⟨x, y⟩ := q
      by_cases hx : x = k
      · subst hx
        simp only [insertA, if_pos rfl] at hp
        rcases List.mem_cons.1 hp with h | h
        · exact Or.inr h
        · exact Or.inl (List.mem_cons_of_mem _ h)
      · simp only [insertA, if_neg hx] at hp
        rcases List.mem_cons.1 hp with h | h
        · exact Or.inl (by rw [h]; exact List.mem_cons_self _ _)
        · rcases ih h with h' | h'
          · exact Or.inl (List.mem_cons_of_mem _ h')
          · exact Or.inr h'

theorem allMembers_insertA_bucket (bs : List (String × List String)) (r a : String)
    (hnotin : a ∉ allMembers bs) :
    allMembers (insertA bs r (addMember ((lookupA bs r).getD []) a)) ~ a :: allMembers bs := by
  induction bs with
  | nil => simp [allMembers, insertA, lookupA, addMember]
  | cons q rest ih =>
      obtain ⟨k, v⟩ := q
      simp only [allMembers, List.map_cons, List.flatten_cons, List.mem_append] at hnotin
      push_neg at hnotin
      by_cases hk : k = r
      · subst hk
        have h1 : lookupA ((k, v) :: rest) k = some v := by simp [lookupA]
        have h2 : ∀ val, insertA ((k, v) :: rest) k val = (k, val) :: rest := by
          intro val
          simp [insertA]
        rw [h1, Option.getD_some, h2]
        simp only [allMembers, List.map_cons, List.flatten_cons]
        have hv : addMember v a = v ++ [a] := by
          unfold addMember
          rw [if_neg hnotin.1]
        rw [hv, List.append_assoc]
        exact List.perm_middle
      · have h1 : lookupA ((k, v) :: rest) r = lookupA rest r := by simp [lookupA, hk]
        have h2 : ∀ val, insertA ((k, v) :: rest) r val = (k, v) :: insertA rest r val := by
          intro val
          simp [insertA, hk]
        rw [h1, h2]
        simp only [allMembers, List.map_cons, List.flatten_cons]
        refine Perm.trans (List.Perm.append_left v (ih hnotin.2)) ?_
        exact List.perm_middle

theorem bucketsLoop_allMembers (addrs : List String) (uf : UF)
    (bs : List (String × List String)) (hnodup : addrs.Nodup)
    (hdisj : ∀ x ∈ addrs, x ∉ allMembers bs) :
    allMembers (bucketsLoop uf bs addrs).2 ~ allMembers bs ++ addrs := by
  induction addrs generalizing uf bs with
  | nil => simp [bucketsLoop]
  | cons a rest ih =>
      simp only [bucketsLoop]
      have hstep := allMembers_insertA_bucket bs (UF.find uf a).2 a
        (hdisj a (List.mem_cons_self _ _))
      have hrest : ∀ x ∈ rest, x ∉
          allMembers (insertA bs (UF.find uf a).2
            (addMember ((lookupA bs (UF.find uf a).2).getD []) a)) := by
        intro x hx hmem
        rcases List.mem_cons.1 ((hstep.mem_iff).1 hmem) with rfl | hmem'
        · exact (List.nodup_cons.1 hnodup).1 hx
        · exact hdisj x (List.mem_cons_of_mem _ hx) hmem'
      refine Perm.trans (ih _ _ (List.nodup_cons.1 hnodup).2 hrest) ?_
      refine Perm.trans (hstep.append_right rest) ?_
      exact List.perm_middle.symm

theorem bucketsLoop_values_ne_nil (addrs : List String) (uf : UF)
    (bs : List (String × List String)) (h : ∀ p ∈ bs, p.2 ≠ []) :
    ∀ p ∈ (bucketsLoop uf bs addrs).2, p.2 ≠ [] := by
  induction addrs generalizing uf bs with
  | nil => exact h
  | cons a rest ih =>
      simp only [bucketsLoop]
      refine ih _ _ ?_
      intro p hp
      rcases mem_insertA _ _ _ p hp with hmem | rfl
      · exact h p hmem
      · exact addMember_ne_nil _ _

/-! ### Sorting lemmas -/

theorem insertDescByScore_perm (c : AddressCluster) (l : List AddressCluster) :
    insertDescByScore c l ~ c :: l := by
  induction l with
  | nil => exact Perm.refl _
  | cons d rest ih =>
      by_cases h : d.score ≤ c.score
      · simp [insertDescByScore, h]
      · simp only [insertDescByScore, if_neg h]
        exact Perm.trans (Perm.cons d ih) (Perm.swap c d rest)

theorem pySortByScoreDesc_perm (l : List AddressCluster) : pySortByScoreDesc l ~ l := by
  induction l with
  | nil => exact Perm.refl _
  | cons c rest ih =>
      simp only [pySortByScoreDesc, List.foldr_cons]
      exact Perm.trans (insertDescByScore_perm c _) (Perm.cons c ih)

/-! ### Structure of the returned cluster list -/

theorem clusters_eq (g : GraphClusterer) (stats : List AddressStats) :
    (g.cluster_by_flow_similarity stats).2 =
      pySortByScoreDesc ((bucketsLoop
          (unionPhase (byAddr stats) g.threshold g.uf (pairs ((byAddr stats).map Prod.fst)))
          [] ((byAddr stats).map Prod.fst)).2.map (fun b =>
        { members := b.2, score := clusterScore (byAddr stats) b.2 : AddressCluster })) := rfl

theorem clusters_perm_buckets (g : GraphClusterer) (stats : List AddressStats) :
    (g.cluster_by_flow_similarity stats).2 ~
      ((bucketsLoop
          (unionPhase (byAddr stats) g.threshold g.uf (pairs ((byAddr stats).map Prod.fst)))
          [] ((byAddr stats).map Prod.fst)).2.map (fun b =>
        { members := b.2, score := clusterScore (byAddr stats) b.2 : AddressCluster })) := by
  rw [clusters_eq]
  exact pySortByScoreDesc_perm _

theorem buckets_allMembers_perm (g : GraphClusterer) (stats : List AddressStats) :
    allMembers (bucketsLoop
        (unionPhase (byAddr stats) g.threshold g.uf (pairs ((byAddr stats).map Prod.fst)))
        [] ((byAddr stats).map Prod.fst)).2 ~ (byAddr stats).map Prod.fst := by
  have h := bucketsLoop_allMembers ((byAddr stats).map Prod.fst)
    (unionPhase (byAddr stats) g.threshold g.uf (pairs ((byAddr stats).map Prod.fst)))
    [] (byAddr_keys_nodup stats) (by intro x _ hx; simp [allMembers] at hx)
  simpa [allMembers] using h

/-- Shared coverage lemma: an address appears in some returned cluster
exactly when it is the address of one of the input statistics. -/
theorem clusters_cover (g : GraphClusterer) (stats : List AddressStats) (a : String) :
    (∃ c ∈ (g.cluster_by_flow_similarity stats).2, a ∈ c.members) ↔
      ∃ s ∈ stats, s.address = a := by
  rw [← mem_byAddr_keys stats a, ← (buckets_allMembers_perm g stats).mem_iff]
  constructor
  · rintro ⟨c, hc, ha⟩
    rcases (clusters_perm_buckets g stats).subset hc with hc'
    rcases List.mem_map.1 hc' with ⟨b, hb, rfl⟩
    exact List.mem_flatten_of_mem (List.mem_map_of_mem Prod.snd hb) ha
  · intro ha
    rcases List.mem_flatten.1 ha with ⟨l, hl, hal⟩
    rcases List.mem_map.1 hl with ⟨b, hb, rfl⟩
    refine ⟨{ members := b.2, score := clusterScore (byAddr stats) b.2 }, ?_, hal⟩
    exact ((clusters_perm_buckets g stats).mem_iff).2
      (List.mem_map_of_mem (fun b => { members := b.2, score := clusterScore (byAddr stats) b.2 : AddressCluster }) hb)

/-- C3: the returned clusters have pairwise-disjoint member sets, and the
addresses covered by the clusters are exactly the input addresses, so
every input address lies in exactly one cluster and nothing else appears. -/
theorem c3_cluster_partition (g : GraphClusterer) (stats : List AddressStats) :
    ((g.cluster_by_flow_similarity stats).2.map AddressCluster.members).Pairwise List.Disjoint ∧
    ∀ a : String, (∃ c ∈ (g.cluster_by_flow_similarity stats).2, a ∈ c.members) ↔
      ∃ s ∈ stats, s.address = a := by
  constructor
  · have hperm : ((g.cluster_by_flow_similarity stats).2.map AddressCluster.members) ~
        ((bucketsLoop
            (unionPhase (byAddr stats) g.threshold g.uf (pairs ((byAddr stats).map Prod.fst)))
            [] ((byAddr stats).map Prod.fst)).2.map Prod.snd) := by
      have := (clusters_perm_buckets g stats).map AddressCluster.members
      simpa [Function.comp] using this
    have hnodup : (allMembers (bucketsLoop
        (unionPhase (byAddr stats) g.threshold g.uf (pairs ((byAddr stats).map Prod.fst)))
        [] ((byAddr stats).map Prod.fst)).2).Nodup :=
      ((buckets_allMembers_perm g stats).nodup_iff).2 (byAddr_keys_nodup stats)
    have hpair := (List.nodup_flatten.1 hnodup).2
    exact (hperm.pairwise_iff (fun h => h.symm)).2 hpair
  · exact clusters_cover g stats

/-! ### Score-bound lemmas -/

theorem score_bounds (s : AddressStats) (hs : 0 ≤ s.sent) (hr : 0 ≤ s.received)
    (hu : 0 ≤ s.unique_counterparties) :
    0 ≤ GraphClusterer.score s ∧ GraphClusterer.score s ≤ 1 := by
  unfold GraphClusterer.score
  have h1 : (0 : Rat) ≤ min ((s.sent + s.received) / 1000) 1 :=
    le_min (by positivity) zero_le_one
  have h2 : min ((s.sent + s.received) / 1000) 1 ≤ 1 := min_le_right _ _
  have h3 : (0 : Rat) ≤ min ((s.unique_counterparties : Rat) / 100) 1 := by
    refine le_min ?_ zero_le_one
    have : (0 : Rat) ≤ (s.unique_counterparties : Rat) := by exact_mod_cast hu
    positivity
  have h4 : min ((s.unique_counterparties : Rat) / 100) 1 ≤ 1 := min_le_right _ _
  constructor <;> nlinarith

theorem clusterScore_bounds (m : List (String × AddressStats)) (members : List String)
    (hne : members ≠ [])
    (hb : ∀ a ∈ members, 0 ≤ GraphClusterer.score (statsOf m a) ∧
        GraphClusterer.score (statsOf m a) ≤ 1) :
    0 ≤ clusterScore m members ∧ clusterScore m members ≤ 1 := by
  unfold clusterScore
  have hlen : (0 : Rat) < (members.length : Rat) := by
    have : 0 < members.length := List.length_pos.2 hne
    exact_mod_cast this
  have hsum0 : (0 : Rat) ≤ (members.map (fun a => GraphClusterer.score (statsOf m a))).sum := by
    refine List.sum_nonneg ?_
    intro x hx
    rcases List.mem_map.1 hx with ⟨a, ha, rfl⟩
    exact (hb a ha).1
  have hsum1 : (members.map (fun a => GraphClusterer.score (statsOf m a))).sum ≤
      (members.length : Rat) := by
    have := List.sum_le_card_nsmul (members.map (fun a => GraphClusterer.score (statsOf m a))) 1
      (by intro x hx; rcases List.mem_map.1 hx with ⟨a, ha, rfl⟩; exact (hb a ha).2)
    simpa [nsmul_eq_mul] using this
  constructor
  · positivity
  · rw [div_le_one hlen]
    exact hsum1

/-- C10: the individual member score lies in `[0, 1]` for non-negative
statistics, and hence every cluster score returned by
`cluster_by_flow_similarity` (a mean over a non-empty member set) lies in
`[0, 1]` as well. -/
theorem c10_scores_in_unit_interval :
    (∀ s : AddressStats, 0 ≤ s.sent → 0 ≤ s.received → 0 ≤ s.unique_counterparties →
        0 ≤ GraphClusterer.score s ∧ GraphClusterer.score s ≤ 1) ∧
    ∀ (g : GraphClusterer) (stats : List AddressStats),
      (∀ s ∈ stats, 0 ≤ s.sent ∧ 0 ≤ s.received ∧ 0 ≤ s.unique_counterparties) →
      ∀ c ∈ (g.cluster_by_flow_similarity stats).2, 0 ≤ c.score ∧ c.score ≤ 1 := by
  refine ⟨score_bounds, ?_⟩
  intro g stats hstats c hc
  rcases List.mem_map.1 ((clusters_perm_buckets g stats).subset hc) with ⟨b, hb, rfl⟩
  have hbne : b.2 ≠ [] :=
    bucketsLoop_values_ne_nil _ _ _ (by intro p hp; simp at hp) b hb
  refine clusterScore_bounds _ _ hbne ?_
  intro a ha
  have hmem : a ∈ (byAddr stats).map Prod.fst := by
    refine ((buckets_allMembers_perm g stats).mem_iff).1 ?_
    exact List.mem_flatten_of_mem (List.mem_map_of_mem Prod.snd hb) ha
  rcases lookupA_isSome_of_mem_keys _ _ hmem with ⟨s, hsv⟩
  have hsmem := byAddr_lookup stats a s hsv
  have : statsOf (byAddr stats) a = s := by simp [statsOf, hsv]
  rw [this]
  rcases hstats s hsmem.1 with ⟨h1, h2, h3⟩
  exact score_bounds s h1 h2 h3

/-- C10 witness: the bounds applied to one concrete statistics record and
to the clusters of a concrete three-address input, hypotheses discharged. -/
theorem c10_scores_in_unit_interval_witness :
    (0 ≤ GraphClusterer.score
        { address := "A", received := 50, sent := 50, unique_counterparties := 3 } ∧
      GraphClusterer.score
        { address := "A", received := 50, sent := 50, unique_counterparties := 3 } ≤ 1) ∧
    ∀ c ∈ ((GraphClusterer.init).cluster_by_flow_similarity statsABC).2,
      0 ≤ c.score ∧ c.score ≤ 1 := by
  constructor
  · exact c10_scores_in_unit_interval.1
      { address := "A", received := 50, sent := 50, unique_counterparties := 3 }
      (by decide) (by decide) (by decide)
  · exact c10_scores_in_unit_interval.2 GraphClusterer.init statsABC (by decide)

/-! ### Claim C5 (singleton clusters) and C1 (linkage and threshold) -/

/-- C5 counterexample: on a single-address input the clusterer reports a
cluster with exactly one member, so singleton groups are not discarded. -/
theorem c5_counterexample :
    ((GraphClusterer.init).cluster_by_flow_similarity singleStats).2.map
        AddressCluster.members = [["A"]] ∧
      ¬ ∀ c ∈ ((GraphClusterer.init).cluster_by_flow_similarity singleStats).2,
          2 ≤ c.members.length := by decide

/-- C5 amended: `cluster_by_flow_similarity` reports every union-find
group including singletons — each input address appears in a returned
cluster, and a returned cluster can have exactly one member. -/
theorem c5_amended (g : GraphClusterer) (stats : List AddressStats) (s : AddressStats)
    (hs : s ∈ stats) :
    ∃ c ∈ (g.cluster_by_flow_similarity stats).2, s.address ∈ c.members :=
  (clusters_cover g stats s.address).2 ⟨s, hs, rfl⟩

/-- C5 witness: the singleton input's lone address is reported. -/
theorem c5_amended_witness :
    ∃ c ∈ ((GraphClusterer.init).cluster_by_flow_similarity singleStats).2,
      "A" ∈ c.members :=
  c5_amended GraphClusterer.init singleStats
    { address := "A", received := 0, sent := 0, unique_counterparties := 0 }
    (by simp [singleStats])

unseal Rat.add Rat.mul Rat.inv Rat.sub in
/-- C1 counterexample: a `GraphClusterer` constructed with no threshold
has threshold 0.5, not 0.55. -/
theorem c1_counterexample :
    (GraphClusterer.init).threshold = 1/2 ∧ ¬ (GraphClusterer.init).threshold = 11/20 := by
  exact ⟨rfl, by decide⟩

/-- C1 amended: the clustering pass visits every unordered pair of
distinct input addresses and unions exactly the pairs whose similarity is
at least the configured threshold; `GraphClusterer`'s own default
threshold is 0.5, while a default-constructed `CorrelationAgent`
configures its clusterer at 0.55. -/
theorem c1_amended :
    (∀ (stats : List AddressStats) (a b : String),
        a ∈ (byAddr stats).map Prod.fst → b ∈ (byAddr stats).map Prod.fst → a ≠ b →
        (a, b) ∈ pairs ((byAddr stats).map Prod.fst) ∨
          (b, a) ∈ pairs ((byAddr stats).map Prod.fst)) ∧
    (∀ (m : List (String × AddressStats)) (t : Rat) (uf : UF) (ps : List (String × String)),
        unionPhase m t uf ps =
          (ps.filter (fun p =>
              GraphClusterer.similarity (statsOf m p.1) (statsOf m p.2) ≥ t)).foldl
            (fun u p => UF.union u p.1 p.2) uf) ∧
    (GraphClusterer.init).threshold = 1/2 ∧
    (CorrelationAgent.init).clusterer.threshold = 11/20 :=
  ⟨fun _ a b => pairs_cover _ a b, unionPhase_eq_foldl_filter, rfl, rfl⟩

/-- C1 witness: two distinct addresses of a concrete input are visited as
a pair by the clustering pass. -/
theorem c1_amended_witness :
    ("A", "B") ∈ pairs ((byAddr statsABC).map Prod.fst) ∨
      ("B", "A") ∈ pairs ((byAddr statsABC).map Prod.fst) :=
  c1_amended.1 statsABC "A" "B" (by decide) (by decide) (by decide)

/-! ### Suspicion-heuristics lemmas -/

theorem lookupA_mem {α : Type} (l : List (String × α)) (k : String) (v : α)
    (h : lookupA l k = some v) : (k, v) ∈ l := by
  induction l with
  | nil => simp [lookupA] at h
  | cons p rest ih =>
      obtain ⟨x, y⟩ := p
      by_cases hx : x = k
      · subst hx
        simp [lookupA] at h
        subst h
        exact List.mem_cons_self _ _
      · simp only [lookupA, if_neg hx] at h
        exact List.mem_cons_of_mem _ (ih h)

theorem flagsForMint_fst_const (th : TransferHeuristics) (mint : String)
    (amap : List (String × BalanceAggregate)) :
    ∀ cross cross', (flagsForMint th mint amap cross).1 = (flagsForMint th mint amap cross').1 := by
  induction amap with
  | nil => intro cross cross'; rfl
  | cons p rest ih =>
      intro cross cross'
      obtain ⟨a, metrics⟩ := p
      simp only [flagsForMint]
      by_cases h : addressReasons th.round_trip_ratio th.hub_threshold metrics = []
      · simp only [if_pos h]
        exact ih cross cross'
      · simp only [if_neg h]
        simp only [List.cons.injEq, true_and]
        exact ih _ _

theorem flagsForMint_lookup_none (th : TransferHeuristics) (mint : String)
    (amap : List (String × BalanceAggregate)) (cross : List (String × List String)) (a : String)
    (h : a ∉ amap.map Prod.fst) :
    lookupA (flagsForMint th mint amap cross).1 a = none := by
  induction amap generalizing cross with
  | nil => rfl
  | cons p rest ih =>
      obtain ⟨x, metrics⟩ := p
      simp only [List.map_cons, List.mem_cons] at h
      push_neg at h
      simp only [flagsForMint]
      by_cases hr : addressReasons th.round_trip_ratio th.hub_threshold metrics = []
      · simp only [if_pos hr]
        exact ih _ h.2
      · simp only [if_neg hr, lookupA, if_neg (Ne.symm h.1)]
        exact ih _ h.2

theorem flagsForMint_lookup (th : TransferHeuristics) (mint : String)
    (amap : List (String × BalanceAggregate)) (cross : List (String × List String))
    (a : String) (metrics : BalanceAggregate)
    (hnodup : (amap.map Prod.fst).Nodup) (hlk : lookupA amap a = some metrics) :
    lookupA (flagsForMint th mint amap cross).1 a =
      if addressReasons th.round_trip_ratio th.hub_threshold metrics = [] then none
      else some (addressReasons th.round_trip_ratio th.hub_threshold metrics) := by
  induction amap generalizing cross with
  | nil => simp [lookupA] at hlk
  | cons p rest ih =>
      obtain ⟨x, m0⟩ := p
      simp only [List.map_cons, List.nodup_cons] at hnodup
      by_cases hx : x = a
      · subst hx
        simp [lookupA] at hlk
        subst hlk
        simp only [flagsForMint]
        by_cases hr : addressReasons th.round_trip_ratio th.hub_threshold m0 = []
        · simp only [if_pos hr]
          exact flagsForMint_lookup_none th mint rest _ x hnodup.1
        · simp only [if_neg hr]
          simp [lookupA]
      · simp only [lookupA, if_neg hx] at hlk
        simp only [flagsForMint]
        by_cases hr : addressReasons th.round_trip_ratio th.hub_threshold m0 = []
        · simp only [if_pos hr]
          exact ih _ hnodup.2 hlk
        · simp only [if_neg hr, lookupA, if_neg hx]
          exact ih _ hnodup.2 hlk

theorem flagMints_lookup_none (th : TransferHeuristics)
    (aggs : List (String × List (String × BalanceAggregate)))
    (cross : List (String × List String)) (m : String)
    (h : m ∉ aggs.map Prod.fst) :
    lookupA (flagMints th aggs cross).1 m = none := by
  induction aggs generalizing cross with
  | nil => rfl
  | cons p rest ih =>
      obtain ⟨mint, amap⟩ := p
      simp only [List.map_cons, List.mem_cons] at h
      push_neg at h
      simp only [flagMints]
      by_cases he : (flagsForMint th mint amap cross).1 = []
      · simp only [if_pos he]
        exact ih _ h.2
      · simp only [if_neg he, lookupA, if_neg (Ne.symm h.1)]
        exact ih _ h.2

theorem flagMints_lookup (th : TransferHeuristics)
    (aggs : List (String × List (String × BalanceAggregate)))
    (cross : List (String × List String)) (m : String)
    (amap : List (String × BalanceAggregate))
    (hnodup : (aggs.map Prod.fst).Nodup) (hlk : lookupA aggs m = some amap) :
    lookupA (flagMints th aggs cross).1 m =
      if (flagsForMint th m amap []).1 = [] then none
      else some ((flagsForMint th m amap []).1) := by
  induction aggs generalizing cross with
  | nil => simp [lookupA] at hlk
  | cons p rest ih =>
      obtain ⟨mint, amap0⟩ := p
      simp only [List.map_cons, List.nodup_cons] at hnodup
      by_cases hx : mint = m
      · subst hx
        simp [lookupA] at hlk
        subst hlk
        simp only [flagMints]
        rw [flagsForMint_fst_const th mint amap0 cross []]
        by_cases he : (flagsForMint th mint amap0 []).1 = []
        · simp only [if_pos he]
          exact flagMints_lookup_none th rest _ mint hnodup.1
        · simp only [if_neg he]
          simp [lookupA]
      · simp only [lookupA, if_neg hx] at hlk
        simp only [flagMints]
        by_cases he : (flagsForMint th mint amap0 cross).1 = []
        · simp only [if_pos he]
          exact ih _ hnodup.2 hlk
        · simp only [if_neg he, lookupA, if_neg hx]
          exact ih _ hnodup.2 hlk

theorem mem_addressReasons_round_trip (r : Rat) (hub : Int) (metrics : BalanceAggregate) :
    "round_trip_flow" ∈ addressReasons r hub metrics ↔
      (metrics.received > 0 ∧ metrics.sent / metrics.received ≥ r) := by
  unfold addressReasons
  by_cases h1 : metrics.received > 0 ∧ metrics.sent / metrics.received ≥ r
  · simp [h1]
  · by_cases h2 : (metrics.peers.length : Int) ≥ hub
    · simp [h1, h2]
    · simp [h1, h2]

unseal Rat.add Rat.mul Rat.inv Rat.sub in
/-- C4: an aggregated address receives the "round_trip_flow" flag exactly
when `received > 0` and `sent / received >= round_trip_ratio`; the default
ratio is 0.8, and in the scenario
`[(X→Y, 100, mintA), (Y→Z, 95, mintA)]` address Y (sent 95, received 100)
is flagged at the default. -/
theorem c4_round_trip_flag :
    (∀ (th : TransferHeuristics) (aggregates : List (String × List (String × BalanceAggregate)))
        (m : String) (amap : List (String × BalanceAggregate)) (a : String)
        (metrics : BalanceAggregate),
        (aggregates.map Prod.fst).Nodup →
        (∀ p ∈ aggregates, (p.2.map Prod.fst).Nodup) →
        lookupA aggregates m = some amap → lookupA amap a = some metrics →
        ((∃ mf, lookupA (flag_suspicious_patterns th aggregates).by_mint m = some mf ∧
            ∃ rs, lookupA mf a = some rs ∧ "round_trip_flow" ∈ rs) ↔
          (metrics.received > 0 ∧ metrics.sent / metrics.received ≥ th.round_trip_ratio))) ∧
    (TransferHeuristics.init).round_trip_ratio = 4/5 ∧
    (∃ mf, lookupA (flag_suspicious_patterns TransferHeuristics.init
          (aggregate_balances scenarioTransfers)).by_mint "mintA" = some mf ∧
        ∃ rs, lookupA mf "Y" = some rs ∧ "round_trip_flow" ∈ rs) := by
  refine ⟨?_, rfl, ?_⟩
  · intro th aggregates m amap a metrics hnm hna hm ha
    have hby : (flag_suspicious_patterns th aggregates).by_mint =
        (flagMints th aggregates []).1 := rfl
    rw [hby, flagMints_lookup th aggregates [] m amap hnm hm]
    have hain : (amap.map Prod.fst).Nodup := hna (m, amap) (lookupA_mem _ _ _ hm)
    have hinner := flagsForMint_lookup th m amap [] a metrics hain ha
    rw [← mem_addressReasons_round_trip th.round_trip_ratio th.hub_threshold metrics]
    by_cases hmf : (flagsForMint th m amap []).1 = []
    · simp only [if_pos hmf]
      constructor
      · rintro ⟨mf, hmf', _⟩
        exact absurd hmf' (by simp)
      · intro hr
        have hne : addressReasons th.round_trip_ratio th.hub_threshold metrics ≠ [] := by
          intro he
          rw [he] at hr
          simp at hr
        rw [if_neg hne, hmf] at hinner
        simp [lookupA] at hinner
    · simp only [if_neg hmf]
      constructor
      · rintro ⟨mf, hmf', rs, hrs, hmem⟩
        rw [Option.some_inj] at hmf'
        subst hmf'
        rw [hinner] at hrs
        by_cases hre : addressReasons th.round_trip_ratio th.hub_threshold metrics = []
        · rw [if_pos hre] at hrs
          simp at hrs
        · rw [if_neg hre, Option.some_inj] at hrs
          subst hrs
          exact hmem
      · intro hr
        have hne : addressReasons th.round_trip_ratio th.hub_threshold metrics ≠ [] := by
          intro he
          rw [he] at hr
          simp at hr
        refine ⟨(flagsForMint th m amap []).1, rfl,
          addressReasons th.round_trip_ratio th.hub_threshold metrics, ?_, hr⟩
        rw [hinner, if_neg hne]
  · decide

unseal Rat.add Rat.mul Rat.inv Rat.sub in
/-- C4 witness: the general equivalence applied to the concrete scenario
aggregates, with all hypotheses discharged on that input. -/
theorem c4_round_trip_flag_witness :
    (∃ mf, lookupA (flag_suspicious_patterns TransferHeuristics.init
          (aggregate_balances scenarioTransfers)).by_mint "mintA" = some mf ∧
        ∃ rs, lookupA mf "Y" = some rs ∧ "round_trip_flow" ∈ rs) ↔
      ((aggregatedY).received > 0 ∧
        (aggregatedY).sent / (aggregatedY).received ≥
          (TransferHeuristics.init).round_trip_ratio) :=
  c4_round_trip_flag.1 TransferHeuristics.init (aggregate_balances scenarioTransfers)
    "mintA" (mintABucket) "Y" (aggregatedY)
    (by decide) (by decide) (by decide) (by decide)

/-! ### Correlation / propagation lemmas -/

theorem foldl_propagation (clusters : List AddressCluster) (suspicious : List String)
    (init : List SuspicionFlag) :
    clusters.foldl (fun acc c =>
      if c.members.any (fun a => a ∈ suspicious) then
        acc ++ (c.members.filter (fun a => a ∉ suspicious)).map (fun a =>
          { address := a,
            reason := "Cluster proximity to flagged counterparties" : SuspicionFlag })
      else acc) init =
    init ++ ((clusters.filter (fun c => c.members.any (fun a => a ∈ suspicious))).map
      (fun c => (c.members.filter (fun a => a ∉ suspicious)).map (fun a =>
        { address := a,
          reason := "Cluster proximity to flagged counterparties" : SuspicionFlag }))).flatten := by
  induction clusters generalizing init with
  | nil => simp
  | cons c rest ih =>
      by_cases h : c.members.any (fun a => a ∈ suspicious)
      · simp only [List.foldl_cons, if_pos h, List.filter_cons, h, if_true, List.map_cons,
          List.flatten_cons, ih, List.append_assoc]
      · simp only [List.foldl_cons, if_neg h, List.filter_cons, ih]

unseal Rat.add Rat.mul Rat.inv Rat.sub in
/-- C6 counterexample: at a concrete three-member cluster with one flagged
member, the newly appended flags do not carry the lowercase reason
"cluster proximity to flagged counterparties" the claim requires. -/
theorem c6_counterexample :
    ¬ ∀ f ∈ (((CorrelationAgent.init).correlate statsABC
        [{ address := "A", reason := "seed" }] []).flags.drop 1),
        f.reason = "cluster proximity to flagged counterparties" := by decide

unseal Rat.add Rat.mul Rat.inv Rat.sub in
/-- C6 amended: for each cluster intersecting the input-flagged set,
`correlate` appends exactly one new flag per not-yet-flagged member, with
reason exactly "Cluster proximity to flagged counterparties" (capital C);
the flagged set is computed from the input flags only, so propagation is
one hop; flagging one member of a 3-member cluster yields exactly 2 new
flags. -/
theorem c6_amended :
    (∀ (agent : CorrelationAgent) (balances : List AddressStats)
        (flags : List SuspicionFlag) (ts : List SolanaTokenTransfer),
        (agent.correlate balances flags ts).flags =
          flags ++ (((agent.clusterer.cluster_by_flow_similarity balances).2.filter
              (fun c => c.members.any (fun a => a ∈ flags.map SuspicionFlag.address))).map
            (fun c => (c.members.filter
                (fun a => a ∉ flags.map SuspicionFlag.address)).map (fun a =>
              { address := a,
                reason := "Cluster proximity to flagged counterparties" : SuspicionFlag }))).flatten) ∧
    ((CorrelationAgent.init).correlate statsABC
        [{ address := "A", reason := "seed" }] []).flags =
      [ { address := "A", reason := "seed" },
        { address := "B", reason := "Cluster proximity to flagged counterparties" },
        { address := "C", reason := "Cluster proximity to flagged counterparties" } ] := by
  constructor
  · intro agent balances flags ts
    exact foldl_propagation _ _ _
  · decide

/-! ### Parser lemmas -/

theorem decimals_for_mint_none_cache (cache : List (String × Int))
    (mint_lookup : Option (String → Option Int)) (dbm : List (String × Int)) (mint : String)
    (h : (decimals_for_mint cache mint_lookup dbm mint).1 = none) :
    (decimals_for_mint cache mint_lookup dbm mint).2 = cache := by
  unfold decimals_for_mint at h ⊢
  cases h1 : lookupA dbm mint with
  | some d => simp [h1] at h
  | none =>
      simp only [h1] at h ⊢
      cases h2 : lookupA cache mint with
      | some d => simp [h2] at h
      | none =>
          simp only [h2] at h ⊢
          cases h3 : mint_lookup with
          | none => simp
          | some f =>
              simp only [h3] at h ⊢
              cases h4 : f mint with
              | none => simp [h4]
              | some r => simp [h4] at h

theorem parse_instruction_ok (cache : List (String × Int))
    (mint_lookup : Option (String → Option Int)) (dbm : List (String × Int))
    (amm : List (String × String)) (i : Instruction) (h : amountParses i) :
    ∃ r, parse_instruction cache mint_lookup dbm amm i = .ok r := by
  cases hp : i.parsed with
  | none => exact ⟨(none, cache), by simp [parse_instruction, hp]⟩
  | some pd =>
      have h' : (rawAmountAndDecimals (pd.info.getD emptyInstrInfo)).isOk = true := by
        unfold amountParses at h
        rw [hp] at h
        exact h
      by_cases ht : pd.type = some "transfer" ∨ pd.type = some "transferChecked"
      · cases hr : rawAmountAndDecimals (pd.info.getD emptyInstrInfo) with
        | error e =>
            rw [hr] at h'
            simp [Except.isOk, Except.toBool] at h'
        | ok r0 =>
            cases r0 with
            | none =>
                exact ⟨(none, cache), by simp [parse_instruction, hp, if_pos ht, hr]⟩
            | some rd =>
                obtain ⟨raw, dfi⟩ := rd
                cases hm : resolveMint (pd.info.getD emptyInstrInfo) amm
                    (pyStrOr (pd.info.getD emptyInstrInfo).source
                      (pd.info.getD emptyInstrInfo).authority)
                    (pyStrOr (pd.info.getD emptyInstrInfo).destination
                      (pd.info.getD emptyInstrInfo).dest) with
                | none =>
                    exact ⟨(none, cache), by simp [parse_instruction, hp, if_pos ht, hr, hm]⟩
                | some mint =>
                    cases hd : (match dfi with
                      | some d => some d
                      | none => (decimals_for_mint cache mint_lookup dbm mint).1) with
                    | none =>
                        refine ⟨(none, (decimals_for_mint cache mint_lookup dbm mint).2), ?_⟩
                        simp [parse_instruction, hp, if_pos ht, hr, hm, hd]
                    | some d =>
                        refine ⟨(some (TokenTransfer.mk mint
                          (pyStrOr (pd.info.getD emptyInstrInfo).source
                            (pd.info.getD emptyInstrInfo).authority)
                          (pyStrOr (pd.info.getD emptyInstrInfo).destination
                            (pd.info.getD emptyInstrInfo).dest)
                          ((raw : Rat) / (10 : Rat) ^ d) raw d (i.program.getD "")),
                          (decimals_for_mint cache mint_lookup dbm mint).2), ?_⟩
                        simp [parse_instruction, hp, if_pos ht, hr, hm, hd]
      · exact ⟨(none, cache), by simp [parse_instruction, hp, if_neg ht]⟩

theorem parse_instruction_ok_none_cache (cache : List (String × Int))
    (mint_lookup : Option (String → Option Int)) (dbm : List (String × Int))
    (amm : List (String × String)) (i : Instruction) (cache' : List (String × Int))
    (h : parse_instruction cache mint_lookup dbm amm i = .ok (none, cache')) :
    cache' = cache := by
  cases hp : i.parsed with
  | none =>
      have he : parse_instruction cache mint_lookup dbm amm i = .ok (none, cache) := by
        simp [parse_instruction, hp]
      rw [he] at h
      simp at h
      exact h.symm
  | some pd =>
      by_cases ht : pd.type = some "transfer" ∨ pd.type = some "transferChecked"
      · cases hr : rawAmountAndDecimals (pd.info.getD emptyInstrInfo) with
        | error e =>
            have he : parse_instruction cache mint_lookup dbm amm i = .error e := by
              simp [parse_instruction, hp, if_pos ht, hr]
            rw [he] at h
            simp at h
        | ok r0 =>
            cases r0 with
            | none =>
                have he : parse_instruction cache mint_lookup dbm amm i = .ok (none, cache) := by
                  simp [parse_instruction, hp, if_pos ht, hr]
                rw [he] at h
                simp at h
                exact h.symm
            | some rd =>
                obtain ⟨raw, dfi⟩ := rd
                cases hm : resolveMint (pd.info.getD emptyInstrInfo) amm
                    (pyStrOr (pd.info.getD emptyInstrInfo).source
                      (pd.info.getD emptyInstrInfo).authority)
                    (pyStrOr (pd.info.getD emptyInstrInfo).destination
                      (pd.info.getD emptyInstrInfo).dest) with
                | none =>
                    have he : parse_instruction cache mint_lookup dbm amm i =
                        .ok (none, cache) := by
                      simp [parse_instruction, hp, if_pos ht, hr, hm]
                    rw [he] at h
                    simp at h
                    exact h.symm
                | some mint =>
                    cases hd : (match dfi with
                      | some d => some d
                      | none => (decimals_for_mint cache mint_lookup dbm mint).1) with
                    | none =>
                        have he : parse_instruction cache mint_lookup dbm amm i =
                            .ok (none, (decimals_for_mint cache mint_lookup dbm mint).2) := by
                          simp [parse_instruction, hp, if_pos ht, hr, hm, hd]
                        rw [he] at h
                        simp at h
                        rw [← h]
                        refine decimals_for_mint_none_cache cache mint_lookup dbm mint ?_
                        cases hdfi : dfi with
                        | none => rw [hdfi] at hd; exact hd
                        | some d => rw [hdfi] at hd; simp at hd
                    | some d =>
                        have he : parse_instruction cache mint_lookup dbm amm i =
                            .ok (some (TokenTransfer.mk mint
                              (pyStrOr (pd.info.getD emptyInstrInfo).source
                                (pd.info.getD emptyInstrInfo).authority)
                              (pyStrOr (pd.info.getD emptyInstrInfo).destination
                                (pd.info.getD emptyInstrInfo).dest)
                              ((raw : Rat) / (10 : Rat) ^ d) raw d (i.program.getD "")),
                              (decimals_for_mint cache mint_lookup dbm mint).2) := by
                          simp [parse_instruction, hp, if_pos ht, hr, hm, hd]
                        rw [he] at h
                        simp at h
      · have he : parse_instruction cache mint_lookup dbm amm i = .ok (none, cache) := by
          simp [parse_instruction, hp, if_neg ht]
        rw [he] at h
        simp at h
        exact h.symm

theorem extractLoop_ok (mint_lookup : Option (String → Option Int))
    (dbm : List (String × Int)) (amm : List (String × String)) (is : List Instruction)
    (h : ∀ i ∈ is, amountParses i) :
    ∀ ts cache, ∃ r, extractLoop mint_lookup dbm amm ts cache is = .ok r := by
  induction is with
  | nil => exact fun ts cache => ⟨(ts, cache), rfl⟩
  | cons i rest ih =>
      intro ts cache
      obtain ⟨r, hr⟩ := parse_instruction_ok cache mint_lookup dbm amm i
        (h i (List.mem_cons_self _ _))
      obtain ⟨t?, cache'⟩ := r
      cases t? with
      | none =>
          obtain ⟨r', hr'⟩ := ih (fun j hj => h j (List.mem_cons_of_mem _ hj)) ts cache'
          exact ⟨r', by simp [extractLoop, hr, hr']⟩
      | some t =>
          obtain ⟨r', hr'⟩ := ih (fun j hj => h j (List.mem_cons_of_mem _ hj)) (ts ++ [t]) cache'
          exact ⟨r', by simp [extractLoop, hr, hr']⟩

/-! ### Claim C7: decimals resolution order -/

/-- C7: for a transfer-class instruction with a parseable amount and a
resolvable mint, the decimals used are, in order of first match: the
instruction's own decimals, then the balance-snapshot metadata, then the
caller-supplied cache, then the lookup callback (whose result is written
back into the cache); when none of these resolves, the instruction is
dropped (`ok none`) and nothing is raised. -/
theorem c7_decimals_resolution (cache : List (String × Int))
    (mint_lookup : Option (String → Option Int)) (dbm : List (String × Int))
    (amm : List (String × String)) (instr : Instruction) (pd : ParsedInstr)
    (info : InstrInfo) (raw : Int) (dfi : Option Int) (mint : String)
    (hpd : instr.parsed = some pd)
    (htype : pd.type = some "transfer" ∨ pd.type = some "transferChecked")
    (hinfo : pd.info.getD emptyInstrInfo = info)
    (hamt : rawAmountAndDecimals info = .ok (some (raw, dfi)))
    (hmint : resolveMint info amm (pyStrOr info.source info.authority)
        (pyStrOr info.destination info.dest) = some mint) :
    (∀ d, dfi = some d →
        parse_instruction cache mint_lookup dbm amm instr =
          .ok (some (TokenTransfer.mk mint (pyStrOr info.source info.authority)
              (pyStrOr info.destination info.dest) ((raw : Rat) / (10 : Rat) ^ d)
              raw d (instr.program.getD "")),
            (decimals_for_mint cache mint_lookup dbm mint).2)) ∧
    (dfi = none → ∀ d, lookupA dbm mint = some d →
        parse_instruction cache mint_lookup dbm amm instr =
          .ok (some (TokenTransfer.mk mint (pyStrOr info.source info.authority)
              (pyStrOr info.destination info.dest) ((raw : Rat) / (10 : Rat) ^ d)
              raw d (instr.program.getD "")), cache)) ∧
    (dfi = none → lookupA dbm mint = none → ∀ d, lookupA cache mint = some d →
        parse_instruction cache mint_lookup dbm amm instr =
          .ok (some (TokenTransfer.mk mint (pyStrOr info.source info.authority)
              (pyStrOr info.destination info.dest) ((raw : Rat) / (10 : Rat) ^ d)
              raw d (instr.program.getD "")), cache)) ∧
    (dfi = none → lookupA dbm mint = none → lookupA cache mint = none →
        ∀ f d, mint_lookup = some f → f mint = some d →
        parse_instruction cache mint_lookup dbm amm instr =
          .ok (some (TokenTransfer.mk mint (pyStrOr info.source info.authority)
              (pyStrOr info.destination info.dest) ((raw : Rat) / (10 : Rat) ^ d)
              raw d (instr.program.getD "")), insertA cache mint d)) ∧
    (dfi = none → lookupA dbm mint = none → lookupA cache mint = none →
        (mint_lookup = none ∨ ∃ f, mint_lookup = some f ∧ f mint = none) →
        parse_instruction cache mint_lookup dbm amm instr = .ok (none, cache)) := by
  rw [← hinfo] at hamt hmint
  refine ⟨?_, ?_, ?_, ?_, ?_⟩
  · rintro d rfl
    rw [← hinfo]
    simp [parse_instruction, hpd, if_pos htype, hamt, hmint]
  · rintro rfl d hdbm
    rw [← hinfo]
    simp [parse_instruction, hpd, if_pos htype, hamt, hmint, decimals_for_mint, hdbm]
  · rintro rfl hdbm d hcache
    rw [← hinfo]
    simp [parse_instruction, hpd, if_pos htype, hamt, hmint, decimals_for_mint, hdbm, hcache]
  · rintro rfl hdbm hcache f d rfl hf
    rw [← hinfo]
    simp [parse_instruction, hpd, if_pos htype, hamt, hmint, decimals_for_mint, hdbm,
      hcache, hf]
  · rintro rfl hdbm hcache hcb
    rcases hcb with rfl | ⟨f, rfl, hf⟩
    · simp [parse_instruction, hpd, if_pos htype, hamt, hmint, decimals_for_mint, hdbm, hcache]
    · simp [parse_instruction, hpd, if_pos htype, hamt, hmint, decimals_for_mint, hdbm,
        hcache, hf]

/-- C7 witness: a concrete transfer whose decimals resolve from the
balance-snapshot metadata (case b), with every hypothesis discharged. -/
theorem c7_decimals_resolution_witness :
    parse_instruction [] none [("M", 4)] [] goodInstr =
      .ok (some (TokenTransfer.mk "M" "S" "D" ((500 : Rat) / (10 : Rat) ^ (4 : Int))
        500 4 "spl-token"), []) := by
  have h := (c7_decimals_resolution [] none [("M", 4)] [] goodInstr
    ⟨some "transfer", some ⟨some "S", none, some "D", none, none, some (.int 500), some "M"⟩⟩
    ⟨some "S", none, some "D", none, none, some (.int 500), some "M"⟩
    500 none "M" rfl (Or.inl rfl) rfl rfl rfl).2.1 rfl 4 rfl
  simpa [pyStrOr, goodInstr] using h

/-! ### Claim C8: malformed instructions -/

unseal Rat.add Rat.mul Rat.inv Rat.sub in
/-- C8 counterexample: a transaction whose second instruction carries the
unparseable amount string "xyz" makes `extract_transfers` raise (the
model's `error`), instead of dropping that instruction and returning the
transfer parsed from the first one. -/
theorem c8_counterexample :
    extract_transfers [("M", 2)] none badTx =
      .error "invalid literal for int() with base 10" := by decide

/-- C8 amended: `extract_transfers` never raises on instructions whose
amount fields parse — a missing field, an unresolvable mint or
unresolvable decimals only drop the single instruction (leaving the
decimals cache unchanged) and the remaining instructions are still
parsed; an amount that `int(...)` cannot parse, however, raises and
aborts the batch. -/
theorem c8_amended :
    (∀ (cache : List (String × Int)) (mint_lookup : Option (String → Option Int))
        (tx : Transaction),
        (∀ i ∈ all_instructions (tx.message.getD ⟨[], []⟩)
            (tx.meta.getD ⟨[], [], []⟩), amountParses i) →
        ∃ r, extract_transfers cache mint_lookup tx = .ok r) ∧
    (∀ (mint_lookup : Option (String → Option Int)) (dbm : List (String × Int))
        (amm : List (String × String)) (ts : List TokenTransfer)
        (cache cache' : List (String × Int)) (bad : Instruction) (rest : List Instruction),
        parse_instruction cache mint_lookup dbm amm bad = .ok (none, cache') →
        cache' = cache ∧
          extractLoop mint_lookup dbm amm ts cache (bad :: rest) =
            extractLoop mint_lookup dbm amm ts cache rest) := by
  constructor
  · intro cache mint_lookup tx h
    exact extractLoop_ok mint_lookup _ _ _ h [] cache
  · intro mint_lookup dbm amm ts cache cache' bad rest h
    have hc := parse_instruction_ok_none_cache cache mint_lookup dbm amm bad cache' h
    subst hc
    exact ⟨rfl, by simp [extractLoop, h]⟩

/-- C8 witness: the no-raise branch on a concrete transaction whose
instructions all parse, and the drop-and-continue branch on a concrete
skipped instruction. -/
theorem c8_amended_witness :
    (∃ r, extract_transfers [("M", 2)] none goodTx = .ok r) ∧
      extractLoop none [] [] [] [("M", 2)] [noParsedInstr] =
        extractLoop none [] [] [] [("M", 2)] [] := by
  constructor
  · exact c8_amended.1 [("M", 2)] none goodTx (by decide)
  · exact (c8_amended.2 none [] [] [] [("M", 2)] [("M", 2)] noParsedInstr [] (by decide)).2

end Forensic
